import Mathlib

/-!
# Verification of the switchy call-generator core (`switchy/apps/call_gen.py`)

A shallow embedding, in Lean 4, of the admission-control engine of the
`Originator` call generator: its run-state machine, its rate/limit/duration
setters, its burst-admission loop, its weighted round-robin application
iterator, and the worker task loop with its exception boundary.

Conventions of the embedding:
* Python numbers (ints and floats; the module activates true division via
  `from __future__ import division`) are modelled as rationals `ℚ`.
* `float('inf')` used for the `max_offered` quota is modelled with `WithTop ℕ`.
* Values that the running code re-reads concurrently (the pool's active-call
  count, the run state observed inside a loop) are modelled as oracles
  `ℕ → _` indexed by the read point.
* Loops without a structural bound take a fuel argument; `none` marks fuel
  exhaustion (i.e. the modelled run was cut short, never an actual outcome).
-/

namespace Switchy

/-- The `State` enumeration of the originator state machine
(`State.INITIAL/ORIGINATING/STOPPED` in `call_gen.py`). -/
inductive StateV
  | INITIAL
  | ORIGINATING
  | STOPPED
  deriving DecidableEq, Repr

/-- Model of `Originator._change_state(ident)`: if the current state differs from the
target it is updated and a state-change observation (the "State Change:
old -> new" log) is emitted; otherwise nothing happens.  The boolean result
records whether a state-change observation was emitted. -/
def change_state (target cur : StateV) : StateV × Bool :=
  if cur = target then (cur, false) else (target, true)

/-- Model of `Originator.stop()`: if not already `STOPPED`, transition to `STOPPED`
via `_change_state` (emitting the observation); otherwise only an
informational "nothing to stop" log happens, with no state change and no
state-change observation. -/
def stop (cur : StateV) : StateV × Bool :=
  if cur ≠ StateV.STOPPED then change_state StateV.STOPPED cur else (cur, false)

/-! ## Engine numeric settings (`rate`, `limit`, `duration` properties) -/

/-- The numeric load settings owned by an `Originator` instance, after
initialization (all fields hold numbers).  `ibp` is the inter-burst pacing
sleep, `max_rate` the hard rate ceiling (`_max_rate = 250` in `__init__`),
`duration_offset` the auto-duration floor (`5` in `__init__`). -/
structure Settings where
  rate : ℚ
  limit : ℚ
  duration : ℚ
  ibp : ℚ
  max_rate : ℚ
  duration_offset : ℚ
  auto_duration : Bool
  deriving DecidableEq, Repr

/-- Model of `Originator._set_rate(value)`: clamp the pacing rate to `max_rate`,
derive `ibp = 1/burst_rate * 0.90`, store the raw `value` as the rate, and,
when `auto_duration` is on and `limit` is truthy (nonzero), recompute
`duration = limit / value + duration_offset`. -/
def set_rate (value : ℚ) (s : Settings) : Settings :=
  let burst_rate := min s.max_rate value
  { s with
    ibp := 1 / burst_rate * (9 / 10)
    rate := value
    duration :=
      if s.auto_duration = true ∧ s.limit ≠ 0 then
        s.limit / value + s.duration_offset
      else s.duration }

/-- Model of `Originator._set_limit(value)`: store the new limit and, when
`auto_duration` is on, recompute `duration = value / rate + duration_offset`
(using the currently stored rate). -/
def set_limit (value : ℚ) (s : Settings) : Settings :=
  { s with
    limit := value
    duration :=
      if s.auto_duration = true then value / s.rate + s.duration_offset
      else s.duration }

/-! ## Constructor default settings (`default_settings` and the
`kwargs.pop(name, None) or val` idiom in `Originator.__init__`) -/

/-- A Python value as far as truthiness in `__init__` is concerned. -/
inductive PyVal
  | vNone
  | vBool (b : Bool)
  | vInt (n : ℤ)
  | vFloat (q : ℚ)
  | vInf
  | vFunc (tag : ℕ)
  deriving DecidableEq, Repr

/-- Python truthiness for the modelled values. -/
def truthy : PyVal → Bool
  | PyVal.vNone => false
  | PyVal.vBool b => b
  | PyVal.vInt n => n ≠ 0
  | PyVal.vFloat q => q ≠ 0
  | PyVal.vInf => true
  | PyVal.vFunc _ => true

/-- Model of `kwargs.pop(name, None) or val`: the supplied keyword (absent ↦ `None`)
if it is truthy, else the class default `val`. -/
def settingOrDefault (supplied : Option PyVal) (dflt : PyVal) : PyVal :=
  match supplied with
  | Option.none => dflt
  | some v => if truthy v then v else dflt

/-- Model of `Originator.default_settings` (the `uuid_gen` default — a function
object — is modelled by an opaque function tag). -/
def default_settings : List (String × PyVal) :=
  [("rate", PyVal.vInt 30),
   ("limit", PyVal.vInt 1),
   ("max_offered", PyVal.vInf),
   ("duration", PyVal.vInt 0),
   ("period", PyVal.vInt 1),
   ("uuid_gen", PyVal.vFunc 0)]

/-! ## The burst admission loop (`Originator._burst`)

`_burst` computes `num = min(limit - count_calls(), rate)` once, then runs
`for _, slave in zip(range(num), self.iterslaves)`, breaking out as soon as
the state is no longer `ORIGINATING` or the re-read call count reaches
`limit`, issuing one originate request (and one pacing sleep) per surviving
iteration.  `range` of a non-positive number is empty and `range` of a
positive float truncates, so the loop body is entered at most
`⌊num⌋` times (when `num > 0`).  The call count and the state are re-read
on every iteration, so they are oracles indexed by the iteration. -/

/-- Number of loop entries `range(num)` allows: `⌊min (limit - calls0) rate⌋`
clamped below at `0`. -/
def burstIters (limit rate calls0 : ℚ) : ℕ :=
  let num := min (limit - calls0) rate
  if num ≤ 0 then 0 else num.floor.toNat

/-- The originate loop of `_burst`: starting at iteration index `i` with `n`
`range`-slots remaining, count the issued originate requests; the loop
breaks when the observed state leaves `ORIGINATING` or the observed call
count reaches `limit`. -/
def burstLoop (limit : ℚ) (callsAt : ℕ → ℚ) (stAt : ℕ → StateV) :
    ℕ → ℕ → ℕ
  | 0, _ => 0
  | n + 1, i =>
    if stAt i ≠ StateV.ORIGINATING then 0
    else if limit ≤ callsAt i then 0
    else 1 + burstLoop limit callsAt stAt n (i + 1)

/-- One invocation of `Originator._burst`: the number of session-creation
(originate) requests issued, given the call count read for the admission
computation (`calls0`) and the per-iteration oracles. -/
def burst (limit rate calls0 : ℚ) (callsAt : ℕ → ℚ) (stAt : ℕ → StateV) : ℕ :=
  burstLoop limit callsAt stAt (burstIters limit rate calls0) 0

/-! ## Quota accounting (`_handle_originate` / `_check_max`) -/

/-- The engine counters touched by the session-created callback. -/
structure Counters where
  total : ℕ
  st : StateV
  deriving DecidableEq, Repr

/-- Model of `Originator._check_max`: if `total_originated_sessions >= max_offered`
(the quota, `float('inf')` by default, modelled as `WithTop ℕ`), force the
state to `STOPPED`. -/
def check_max (maxOffered : WithTop ℕ) (s : Counters) : Counters :=
  if maxOffered ≤ (s.total : WithTop ℕ) then { s with st := StateV.STOPPED }
  else s

/-- Model of `Originator._handle_originate` (the `CHANNEL_ORIGINATE` callback):
increment `total_originated_sessions`, then run `_check_max`. -/
def handle_originate (maxOffered : WithTop ℕ) (s : Counters) : Counters :=
  check_max maxOffered { s with total := s.total + 1 }

/-! ## The weighted round-robin iterator (`WeightedIterator`)

`WeightedIterator.__iter__` pulls keys from `cycle()` — an endless scan of
the key order of the countdown map, raising `StopIteration` when the weight
map is empty — and, per visited key, emits it and decrements its countdown
when the countdown is positive, then (after *every* key visit) refills all
countdowns from the weight map when they have all reached zero.

The embedding fixes the key order as a list `ks`, keeps the countdown map
as a function `counts : α → ℕ`, and tracks the scan position; one `visit`
is one key visit of the `__iter__` body. -/

/-- Iterator state: scan position into the key order, and the countdown
copy `self.counts`. -/
structure WIState (α : Type) where
  pos : ℕ
  counts : α → ℕ

/-- One key visit of `WeightedIterator.__iter__`: look at the key under the
scan position; if its countdown is positive, emit it and decrement; then, if
every countdown over the key order is zero, refill the countdowns from the
weight map.  Returns (emitted item, whether the refill/reset fired, next
state).  (`ks = []` never reaches the `some` branch; the empty-map
`StopIteration` is modelled at the call sites that pull from the
iterator.) -/
def visit {α : Type} [DecidableEq α] (ks : List α) (w : α → ℕ)
    (s : WIState α) : Option α × Bool × WIState α :=
  match ks[s.pos % ks.length]? with
  | Option.none => (Option.none, false, ⟨s.pos + 1, s.counts⟩)
  | some k =>
    if 0 < s.counts k then
      if ∀ j ∈ ks, Function.update s.counts k (s.counts k - 1) j = 0 then
        (some k, true, ⟨s.pos + 1, w⟩)
      else
        (some k, false,
          ⟨s.pos + 1, Function.update s.counts k (s.counts k - 1)⟩)
    else
      if ∀ j ∈ ks, s.counts j = 0 then
        (Option.none, true, ⟨s.pos + 1, w⟩)
      else
        (Option.none, false, ⟨s.pos + 1, s.counts⟩)

/-- The emissions of one full cycle: run visits, collecting emitted items,
until the countdown reset fires (the visit that triggers the reset
contributes its own emission); `none` when the fuel runs out first. -/
def cycleEmits {α : Type} [DecidableEq α] (ks : List α) (w : α → ℕ) :
    ℕ → WIState α → Option (List α)
  | 0, _ => Option.none
  | n + 1, s =>
    let v := visit ks w s
    if v.2.1 then some v.1.toList
    else (cycleEmits ks w n v.2.2).map (fun l => v.1.toList ++ l)

/-- One full cycle of the iterator from a fresh state (countdowns equal to
the weights, scan at the first key). -/
def oneCycle {α : Type} [DecidableEq α] (ks : List α) (w : α → ℕ)
    (fuel : ℕ) : Option (List α) :=
  cycleEmits ks w fuel ⟨0, w⟩

/-- Whether one of the first `n` key visits emits an item: a `next()`
request on the iterator returns exactly when some visit emits. -/
def emitsWithin {α : Type} [DecidableEq α] (ks : List α) (w : α → ℕ) :
    ℕ → WIState α → Bool
  | 0, _ => false
  | n + 1, s =>
    (visit ks w s).1.isSome || emitsWithin ks w n (visit ks w s).2.2

/-- Number of emissions among the first `n` key visits. -/
def emitCount {α : Type} [DecidableEq α] (ks : List α) (w : α → ℕ) :
    ℕ → WIState α → ℕ
  | 0, _ => 0
  | n + 1, s =>
    (if (visit ks w s).1.isSome then 1 else 0) +
      emitCount ks w n (visit ks w s).2.2

/-- Whether none of the first `n` key visits fires the countdown reset. -/
def noResetWithin {α : Type} [DecidableEq α] (ks : List α) (w : α → ℕ) :
    ℕ → WIState α → Bool
  | 0, _ => true
  | n + 1, s =>
    !(visit ks w s).2.1 && noResetWithin ks w n (visit ks w s).2.2

/-- The state after `n` key visits. -/
def visitN {α : Type} [DecidableEq α] (ks : List α) (w : α → ℕ) :
    ℕ → WIState α → WIState α
  | 0, s => s
  | n + 1, s => visitN ks w n (visit ks w s).2.2

/-- A `next(self.iterappids)` pull: run key visits until one emits, and
return the emitted identifier with the resulting iterator state; `none`
when the fuel runs out first (the pull diverges, which happens exactly when
it can never emit). -/
def wiFirstEmit {α : Type} [DecidableEq α] (ks : List α) (w : α → ℕ) :
    ℕ → WIState α → Option (α × WIState α)
  | 0, _ => Option.none
  | n + 1, s =>
    match (visit ks w s).1 with
    | some a => some (a, (visit ks w s).2.2)
    | Option.none => wiFirstEmit ks w n (visit ks w s).2.2

/-! ## `_serve_forever`: the worker task loop and its exception boundary

`_serve_forever` (one pass, after a start trigger) raises
`ConfigurationError` when `originate_cmd[0]` is falsy — before any burst is
scheduled (the outermost handler catches it, logs, and the worker exits;
`start()` itself never sees it).  Otherwise it loops `sched.run()`-driven
bursts while the state is not `STOPPED`; any exception escaping a burst is
caught at the loop boundary and forces `_change_state("STOPPED")`.

The abstract task loop `taskLoopA` takes each burst outcome as an oracle
(`Except.error` = an exception escaped the burst).  The concrete
`taskLoopWI`/`servePass` run the modelled `_burst` with the weighted
iterator inline: an empty weight map makes `next(self.iterappids)` raise
`StopIteration` (the generator's "no items in multiset" failure), which
escapes `_burst` like any other exception. -/

/-- The run state observed when the task loop exits, plus the total number
of originate requests issued; `none` = fuel ran out (the modelled run was
cut short). -/
def taskLoopA (stopObs : ℕ → Bool) (burstRes : ℕ → Except Unit ℕ) :
    ℕ → ℕ → ℕ → Option (StateV × ℕ)
  | 0, _, _ => Option.none
  | fuel + 1, b, acc =>
    if stopObs b then some (StateV.STOPPED, acc)
    else
      match burstRes b with
      | Except.error _ => some (StateV.STOPPED, acc)
      | Except.ok c => taskLoopA stopObs burstRes fuel (b + 1) (acc + c)

/-- Model of `Originator._burst` with the weighted iterator inline: per surviving
iteration, pull the next app id (`next(self.iterappids)`) and issue one
originate.  Result: (issued count, whether an exception escaped the burst,
final iterator state); on an escape, the originates already issued before
it are counted.  An empty weight map makes the pull raise `StopIteration`
immediately; `none` = the pull diverged (fuel ran out). -/
def burstWI {α : Type} [DecidableEq α] (limit : ℚ) (callsAt : ℕ → ℚ)
    (stAt : ℕ → StateV) (ks : List α) (w : α → ℕ) (wiFuel : ℕ) :
    ℕ → ℕ → WIState α → Option (ℕ × Bool × WIState α)
  | 0, _, wi => some (0, false, wi)
  | n + 1, i, wi =>
    if stAt i ≠ StateV.ORIGINATING then some (0, false, wi)
    else if limit ≤ callsAt i then some (0, false, wi)
    else if ks.isEmpty then some (0, true, wi)
    else
      match wiFirstEmit ks w wiFuel wi with
      | Option.none => Option.none
      | some (_, wi') =>
        (burstWI limit callsAt stAt ks w wiFuel n (i + 1) wi').map
          (fun r => (r.1 + 1, r.2.1, r.2.2))

/-- The `while not self.check_state('STOPPED')` task loop with the
concrete burst: `stopObs b` is whether the state observed before burst `b`
is `STOPPED` (e.g. via the quota callback); an exception escaping a burst
forces `STOPPED` at the loop boundary. -/
def taskLoopWI {α : Type} [DecidableEq α] (limit rate : ℚ)
    (calls0At : ℕ → ℚ) (callsAt : ℕ → ℕ → ℚ) (stAt : ℕ → ℕ → StateV)
    (stopObs : ℕ → Bool) (ks : List α) (w : α → ℕ) (wiFuel : ℕ) :
    ℕ → ℕ → ℕ → WIState α → Option (StateV × ℕ)
  | 0, _, _, _ => Option.none
  | fuel + 1, b, acc, wi =>
    if stopObs b then some (StateV.STOPPED, acc)
    else
      match burstWI limit (callsAt b) (stAt b) ks w wiFuel
          (burstIters limit rate (calls0At b)) 0 wi with
      | Option.none => Option.none
      | some (c, true, _) => some (StateV.STOPPED, acc + c)
      | some (c, false, wi') =>
        taskLoopWI limit rate calls0At callsAt stAt stopObs ks w wiFuel
          fuel (b + 1) (acc + c) wi'

/-- Outcome of one `_serve_forever` pass after a start trigger. -/
inductive ServeOutcome
  | configError
  | finished (st : StateV) (issued : ℕ)
  deriving DecidableEq, Repr

/-- One `_serve_forever` pass: when `originate_cmd[0]` is falsy
(`origCmdSet = false`), `ConfigurationError` is raised before any burst
(`configError`; the outer handler catches it and the worker exits);
otherwise the task loop runs from a fresh iterator state. -/
def servePass {α : Type} [DecidableEq α] (origCmdSet : Bool)
    (limit rate : ℚ) (calls0At : ℕ → ℚ) (callsAt : ℕ → ℕ → ℚ)
    (stAt : ℕ → ℕ → StateV) (stopObs : ℕ → Bool) (ks : List α)
    (w : α → ℕ) (wiFuel fuel : ℕ) : Option ServeOutcome :=
  if origCmdSet = false then some ServeOutcome.configError
  else
    (taskLoopWI limit rate calls0At callsAt stAt stopObs ks w wiFuel
        fuel 0 0 ⟨0, w⟩).map
      (fun r => ServeOutcome.finished r.1 r.2)

end Switchy

namespace Switchy

/-! ## Theorems: state machine and settings claims -/

/-- Claim C8: `stop()` is idempotent: one call already ends in `STOPPED`, a
second call leaves the state unchanged and emits no state-change
observation; and in general a `_change_state` request whose target equals
the current state leaves the state unchanged and emits nothing. -/
theorem stop_idempotent :
    ∀ cur : StateV,
      (stop cur).1 = StateV.STOPPED ∧
      stop (stop cur).1 = ((stop cur).1, false) ∧
      (∀ t : StateV, change_state t t = (t, false)) := by
  intro cur
  refine ⟨?_, ?_, ?_⟩
  · cases cur <;> simp [stop, change_state]
  · cases cur <;> simp [stop, change_state]
  · intro t; simp [change_state]

/-- Claim C3: Setting `rate` to a positive `v` stores `v` unchanged, while the
pacing interval becomes `1 / min v max_rate * 0.9`; with the default
`max_rate = 250`, a `v > 250` paces at rate `250` and a `v ≤ 250` paces at
rate `v`; no error is raised and the stored value is not clamped. -/
theorem set_rate_clamp (s : Settings) (v : ℚ) (hv : 0 < v)
    (hmr : s.max_rate = 250) :
    (set_rate v s).rate = v ∧
    (set_rate v s).ibp = 1 / min v 250 * (9 / 10) ∧
    (250 < v → (set_rate v s).ibp = 1 / 250 * (9 / 10)) ∧
    (v ≤ 250 → (set_rate v s).ibp = 1 / v * (9 / 10)) := by
  refine ⟨rfl, ?_, ?_, ?_⟩
  · simp [set_rate, hmr, min_comm]
  · intro h
    simp [set_rate, hmr, min_eq_left (le_of_lt h)]
  · intro h
    simp [set_rate, hmr, min_eq_right h]

/-- Witness for `set_rate_clamp` at `v = 300` on a concrete settings
record. -/
theorem set_rate_clamp_witness :
    (0 : ℚ) < 300 ∧
    ((set_rate 300 ⟨30, 1, 5, 1, 250, 5, true⟩).rate = 300 ∧
     (set_rate 300 ⟨30, 1, 5, 1, 250, 5, true⟩).ibp = 1 / min 300 250 * (9 / 10) ∧
     ((250 : ℚ) < 300 → (set_rate 300 ⟨30, 1, 5, 1, 250, 5, true⟩).ibp = 1 / 250 * (9 / 10)) ∧
     ((300 : ℚ) ≤ 250 → (set_rate 300 ⟨30, 1, 5, 1, 250, 5, true⟩).ibp = 1 / 300 * (9 / 10))) :=
  ⟨by norm_num, set_rate_clamp ⟨30, 1, 5, 1, 250, 5, true⟩ 300 (by norm_num) rfl⟩

/-- Claim C4, counterexample: With `auto_duration` on but `limit = 0`
(falsy), an assignment to `rate` does *not* recompute `duration` (the
guard `if self.auto_duration and self.limit` fails), so afterwards
`duration ≠ limit / rate + duration_offset` from a state where `duration`
was set directly. -/
theorem set_rate_no_recompute_at_zero_limit :
    let s0 : Settings := ⟨1, 0, 99, 1, 250, 5, true⟩
    let s1 := set_rate 2 s0
    s1.duration = 99 ∧ ¬ s1.duration = s1.limit / s1.rate + s1.duration_offset := by
  constructor
  · norm_num [set_rate]
  · norm_num [set_rate]

/-- Claim C4, amended: With `auto_duration` enabled: every `limit` assignment
recomputes `duration = limit / rate + duration_offset`; a `rate` assignment
recomputes it only when `limit` is nonzero (truthy), so after a rate
assignment the law `duration = limit / rate + duration_offset` holds
whenever `limit ≠ 0`, and is preserved when `limit = 0` provided it already
held before the assignment. -/
theorem auto_duration_law (s : Settings) (v : ℚ)
    (hauto : s.auto_duration = true) :
    (set_limit v s).duration = v / s.rate + s.duration_offset ∧
    (s.limit ≠ 0 ∨ s.duration = s.limit / s.rate + s.duration_offset →
      (set_rate v s).duration = s.limit / v + s.duration_offset) := by
  constructor
  · simp [set_limit, hauto]
  · intro h
    rcases h with h | h
    · simp [set_rate, hauto, h]
    · by_cases hl : s.limit = 0
      · simp [set_rate, hauto, hl, h]
      · simp [set_rate, hauto, hl]

/-- Witness for `auto_duration_law` on a concrete settings record. -/
theorem auto_duration_law_witness :
    let s : Settings := ⟨10, 20, 7, 1, 250, 5, true⟩
    (set_limit 40 s).duration = 40 / s.rate + s.duration_offset ∧
    (s.limit ≠ 0 ∨ s.duration = s.limit / s.rate + s.duration_offset →
      (set_rate 40 s).duration = s.limit / 40 + s.duration_offset) :=
  auto_duration_law ⟨10, 20, 7, 1, 250, 5, true⟩ 40 rfl

/-- Claim C9: For each of the six `default_settings` keywords, a falsy supplied
value (`0`, `0.0`, `None`, `False`) is replaced by the class default — in
particular `rate=0 ↦ 30`, `limit=0 ↦ 1`, `max_offered=0 ↦ inf` — while any
truthy supplied value is kept. -/
theorem init_falsy_defaults :
    (∀ v : PyVal, ∀ p ∈ default_settings, truthy v = false →
      settingOrDefault (some v) p.2 = p.2) ∧
    (∀ v : PyVal, ∀ p ∈ default_settings, truthy v = true →
      settingOrDefault (some v) p.2 = v) ∧
    settingOrDefault (some (PyVal.vInt 0)) (PyVal.vInt 30) = PyVal.vInt 30 ∧
    settingOrDefault (some (PyVal.vInt 0)) (PyVal.vInt 1) = PyVal.vInt 1 ∧
    settingOrDefault (some (PyVal.vInt 0)) PyVal.vInf = PyVal.vInf ∧
    (∀ p ∈ default_settings, settingOrDefault Option.none p.2 = p.2) := by
  refine ⟨?_, ?_, by decide, by decide, by decide, ?_⟩
  · intro v p _ hv
    simp [settingOrDefault, hv]
  · intro v p _ hv
    simp [settingOrDefault, hv]
  · intro p _
    rfl

/-- Witness for `init_falsy_defaults`: the falsy case at `rate = 0.0` and
the truthy case at `rate = 7`. -/
theorem init_falsy_defaults_witness :
    settingOrDefault (some (PyVal.vFloat 0)) (PyVal.vInt 30) = PyVal.vInt 30 ∧
    settingOrDefault (some (PyVal.vInt 7)) (PyVal.vInt 30) = PyVal.vInt 7 :=
  ⟨init_falsy_defaults.1 (PyVal.vFloat 0) ("rate", PyVal.vInt 30)
      (by decide) (by decide),
   init_falsy_defaults.2.1 (PyVal.vInt 7) ("rate", PyVal.vInt 30)
      (by decide) (by decide)⟩

/-! ## Theorems: burst admission and quota claims -/

/-- The burst loop issues at most one request per `range`-slot. -/
lemma burstLoop_le (limit : ℚ) (callsAt : ℕ → ℚ) (stAt : ℕ → StateV) :
    ∀ n i, burstLoop limit callsAt stAt n i ≤ n := by
  intro n
  induction n with
  | zero => intro i; simp [burstLoop]
  | succ n ih =>
    intro i
    by_cases h1 : stAt i ≠ StateV.ORIGINATING
    · simp [burstLoop, h1]
    · by_cases h2 : limit ≤ callsAt i
      · simp [burstLoop, h1, h2]
      · have h := ih (i + 1)
        simp [burstLoop, h1, h2]
        omega

/-- If the observed state is `STOPPED` throughout, a burst issues nothing. -/
lemma burst_stopped (limit rate calls0 : ℚ) (callsAt : ℕ → ℚ) :
    burst limit rate calls0 callsAt (fun _ => StateV.STOPPED) = 0 := by
  unfold burst
  cases burstIters limit rate calls0 with
  | zero => rfl
  | succ n => simp [burstLoop]

/-- Claim C1: For every burst invocation (any oracles for the re-read call
count and state), the number of originate requests issued is at most
`max 0 (limit - activeAtBurstStart)` and at most `rate` (the configured
values, `rate ≥ 0` per the data model); and whenever
`min (limit - active, rate) ≤ 0` the burst issues no work at all. -/
theorem burst_admission_ceiling (limit rate calls0 : ℚ) (callsAt : ℕ → ℚ)
    (stAt : ℕ → StateV) (hrate : 0 ≤ rate) :
    ((burst limit rate calls0 callsAt stAt : ℚ) ≤ max 0 (limit - calls0)) ∧
    ((burst limit rate calls0 callsAt stAt : ℚ) ≤ rate) ∧
    (min (limit - calls0) rate ≤ 0 →
      burst limit rate calls0 callsAt stAt = 0) := by
  set num : ℚ := min (limit - calls0) rate with hnum
  have hzero : num ≤ 0 → burst limit rate calls0 callsAt stAt = 0 := by
    intro h
    unfold burst burstIters
    rw [← hnum]
    simp [h, burstLoop]
  by_cases hle : num ≤ 0
  · refine ⟨?_, ?_, fun _ => hzero hle⟩
    · rw [hzero hle]; exact_mod_cast le_max_left 0 (limit - calls0)
    · rw [hzero hle]; exact_mod_cast hrate
  · push_neg at hle
    have hfl : (0 : ℤ) ≤ num.floor := Int.floor_nonneg.mpr (le_of_lt hle)
    have hiters : burstIters limit rate calls0 = num.floor.toNat := by
      unfold burstIters
      rw [← hnum]
      simp [not_le.mpr hle, le_of_lt hle]
    have hb : burst limit rate calls0 callsAt stAt ≤ num.floor.toNat := by
      unfold burst
      rw [hiters]
      exact burstLoop_le _ _ _ _ 0
    have hcast : ((burst limit rate calls0 callsAt stAt : ℚ)) ≤ num := by
      calc ((burst limit rate calls0 callsAt stAt : ℚ))
          ≤ (num.floor.toNat : ℚ) := by exact_mod_cast hb
        _ = ((num.floor : ℤ) : ℚ) := by exact_mod_cast Int.toNat_of_nonneg hfl
        _ ≤ num := Int.floor_le num
    refine ⟨?_, ?_, fun h => absurd h (not_le.mpr hle)⟩
    · exact le_trans hcast (le_trans (min_le_left _ _) (le_max_right _ _))
    · exact le_trans hcast (min_le_right _ _)

/-- Witness for `burst_admission_ceiling` at `limit = 3`, `rate = 2`,
`calls0 = 1`, constantly-`ORIGINATING` state and constant call count. -/
theorem burst_admission_ceiling_witness :
    ((0 : ℚ) ≤ 2) ∧
    ((burst 3 2 1 (fun _ => 1) (fun _ => StateV.ORIGINATING) : ℚ) ≤
        max 0 (3 - 1) ∧
      (burst 3 2 1 (fun _ => 1) (fun _ => StateV.ORIGINATING) : ℚ) ≤ 2 ∧
      (min ((3 : ℚ) - 1) 2 ≤ 0 →
        burst 3 2 1 (fun _ => 1) (fun _ => StateV.ORIGINATING) = 0)) :=
  ⟨by norm_num,
   burst_admission_ceiling 3 2 1 (fun _ => 1) (fun _ => StateV.ORIGINATING)
     (by norm_num)⟩

/-- `check_max` never touches the session counter. -/
lemma check_max_total (maxOffered : WithTop ℕ) (s : Counters) :
    (check_max maxOffered s).total = s.total := by
  unfold check_max
  split <;> rfl

/-- Each `CHANNEL_ORIGINATE` notification increments the counter by one. -/
lemma handle_originate_total (maxOffered : WithTop ℕ) :
    ∀ (k : ℕ) (s : Counters),
      ((handle_originate maxOffered)^[k] s).total = s.total + k := by
  intro k
  induction k with
  | zero => intro s; simp
  | succ k ih =>
    intro s
    rw [Function.iterate_succ_apply', handle_originate, check_max_total]
    simp [ih s]
    ring

/-- Claim C2: With `max_offered = N ≥ 1` and the counter initially `0`, after
exactly `N` session-created (`CHANNEL_ORIGINATE`) notifications the counter
equals `N` and the state is `STOPPED`; and a burst invocation that observes
the `STOPPED` state issues no admission, whatever the limits and call
counts — no `stop()` call is involved. -/
theorem quota_termination (N : ℕ) (hN : 1 ≤ N) :
    (handle_originate (N : WithTop ℕ))^[N] ⟨0, StateV.ORIGINATING⟩ =
      (⟨N, StateV.STOPPED⟩ : Counters) ∧
    (∀ limit rate calls0 callsAt,
      burst limit rate calls0 callsAt (fun _ => StateV.STOPPED) = 0) := by
  refine ⟨?_, fun limit rate calls0 callsAt => burst_stopped _ _ _ _⟩
  obtain ⟨M, rfl⟩ : ∃ M, N = M + 1 := ⟨N - 1, (Nat.succ_pred_eq_of_pos hN).symm⟩
  rw [Function.iterate_succ_apply']
  have htot :
      ((handle_originate ((M + 1 : ℕ) : WithTop ℕ))^[M]
        (⟨0, StateV.ORIGINATING⟩ : Counters)).total = M := by
    simp [handle_originate_total]
  set s := (handle_originate ((M + 1 : ℕ) : WithTop ℕ))^[M]
    (⟨0, StateV.ORIGINATING⟩ : Counters) with hs
  show handle_originate ((M + 1 : ℕ) : WithTop ℕ) s = _
  unfold handle_originate check_max
  rw [htot]
  simp

/-- Witness for `quota_termination` at `N = 3`. -/
theorem quota_termination_witness :
    (1 ≤ 3) ∧
    ((handle_originate ((3 : ℕ) : WithTop ℕ))^[3] ⟨0, StateV.ORIGINATING⟩ =
        (⟨3, StateV.STOPPED⟩ : Counters) ∧
      (∀ limit rate calls0 callsAt,
        burst limit rate calls0 callsAt (fun _ => StateV.STOPPED) = 0)) :=
  ⟨by norm_num, quota_termination 3 (by norm_num)⟩

end Switchy
namespace Switchy
section WI
variable {α : Type} [DecidableEq α]

lemma visit_emit_reset {ks : List α} {w : α → ℕ} {s : WIState α} {k : α}
    (hget : ks[s.pos % ks.length]? = some k) (hc : 0 < s.counts k)
    (hr : ∀ j ∈ ks, Function.update s.counts k (s.counts k - 1) j = 0) :
    visit ks w s = (some k, true, ⟨s.pos + 1, w⟩) := by
  unfold visit
  rw [hget]
  simp only [if_pos hc, if_pos hr]

lemma visit_emit_noreset {ks : List α} {w : α → ℕ} {s : WIState α} {k : α}
    (hget : ks[s.pos % ks.length]? = some k) (hc : 0 < s.counts k)
    (hr : ¬ ∀ j ∈ ks, Function.update s.counts k (s.counts k - 1) j = 0) :
    visit ks w s =
      (some k, false, ⟨s.pos + 1, Function.update s.counts k (s.counts k - 1)⟩) := by
  unfold visit
  rw [hget]
  simp only [if_pos hc, if_neg hr]

lemma visit_skip_reset {ks : List α} {w : α → ℕ} {s : WIState α} {k : α}
    (hget : ks[s.pos % ks.length]? = some k) (hc : s.counts k = 0)
    (hall : ∀ j ∈ ks, s.counts j = 0) :
    visit ks w s = (Option.none, true, ⟨s.pos + 1, w⟩) := by
  have hc' : ¬ 0 < s.counts k := by omega
  unfold visit
  rw [hget]
  simp only [if_neg hc', if_pos hall]

lemma visit_skip_noreset {ks : List α} {w : α → ℕ} {s : WIState α} {k : α}
    (hget : ks[s.pos % ks.length]? = some k) (hc : s.counts k = 0)
    (hall : ¬ ∀ j ∈ ks, s.counts j = 0) :
    visit ks w s = (Option.none, false, ⟨s.pos + 1, s.counts⟩) := by
  have hc' : ¬ 0 < s.counts k := by omega
  unfold visit
  rw [hget]
  simp only [if_neg hc', if_neg hall]

lemma cycleEmits_count {ks : List α} {w : α → ℕ} :
    ∀ (n : ℕ) (s : WIState α) (l : List α),
      cycleEmits ks w n s = some l → ∀ k ∈ ks, l.count k = s.counts k := by
  intro n
  induction n with
  | zero => intro s l h; simp [cycleEmits] at h
  | succ n ih =>
    intro s l h k hk
    have hlen : 0 < ks.length := List.length_pos.mpr (List.ne_nil_of_mem hk)
    have hidx : s.pos % ks.length < ks.length := Nat.mod_lt _ hlen
    obtain ⟨k', hget⟩ : ∃ k', ks[s.pos % ks.length]? = some k' :=
      ⟨_, List.getElem?_eq_getElem hidx⟩
    have hk'mem : k' ∈ ks := List.getElem?_mem hget
    by_cases hc : 0 < s.counts k'
    · by_cases hr : ∀ j ∈ ks, Function.update s.counts k' (s.counts k' - 1) j = 0
      · have hv := visit_emit_reset (w := w) hget hc hr
        simp only [cycleEmits, hv] at h
        simp only [Option.toList_some, if_true, Option.some_inj] at h
        subst h
        have h1 := hr k hk
        rcases eq_or_ne k k' with rfl | hne
        · rw [Function.update_same] at h1
          simp [List.count_cons]
          omega
        · rw [Function.update_noteq hne] at h1
          simp [List.count_cons, hne, h1]
      · have hv := visit_emit_noreset (w := w) hget hc hr
        simp only [cycleEmits, hv] at h
        simp only [Bool.false_eq_true, if_false, Option.toList_some] at h
        rw [Option.map_eq_some'] at h
        obtain ⟨l2, hl2, rfl⟩ := h
        have h2 : List.count k l2 = Function.update s.counts k' (s.counts k' - 1) k :=
          ih _ _ hl2 k hk
        rcases eq_or_ne k k' with rfl | hne
        · rw [Function.update_same] at h2
          show List.count k ([k] ++ l2) = s.counts k
          have h3 : List.count k ([k] ++ l2) = List.count k l2 + 1 := by simp
          rw [h3, h2]
          omega
        · rw [Function.update_noteq hne] at h2
          simp [List.singleton_append, List.count_cons, hne, h2]
    · have hc' : s.counts k' = 0 := by omega
      by_cases hall : ∀ j ∈ ks, s.counts j = 0
      · have hv := visit_skip_reset (w := w) hget hc' hall
        simp only [cycleEmits, hv] at h
        simp only [Option.toList_none, if_true, Option.some_inj] at h
        subst h
        simp [hall k hk]
      · have hv := visit_skip_noreset (w := w) hget hc' hall
        simp only [cycleEmits, hv] at h
        simp only [Bool.false_eq_true, if_false, Option.toList_none, List.nil_append] at h
        rw [Option.map_eq_some'] at h
        obtain ⟨l2, hl2, hl⟩ := h
        have h2 : List.count k l2 = s.counts k := ih _ _ hl2 k hk
        rw [← hl]
        simpa using h2

lemma oneCycle_count {ks : List α} {w : α → ℕ} (fuel : ℕ) (l : List α)
    (h : oneCycle ks w fuel = some l) : ∀ k ∈ ks, l.count k = w k :=
  cycleEmits_count fuel ⟨0, w⟩ l h

lemma exists_offset (ks : List α) (k : α) (hk : k ∈ ks) (p : ℕ) :
    ∃ j, j < ks.length ∧ ks[(p + j) % ks.length]? = some k := by
  obtain ⟨t, rfl⟩ := List.mem_iff_get.mp hk
  have hL0 : 0 < ks.length := lt_of_le_of_lt (Nat.zero_le t.1) t.2
  refine ⟨(t.1 + ks.length - p % ks.length) % ks.length, Nat.mod_lt _ hL0, ?_⟩
  have hr : p % ks.length < ks.length := Nat.mod_lt p hL0
  have hd : ks.length * (p / ks.length) + p % ks.length = p :=
    Nat.div_add_mod p ks.length
  have h1 : (p + (t.1 + ks.length - p % ks.length) % ks.length) % ks.length =
      (p + (t.1 + ks.length - p % ks.length)) % ks.length :=
    Nat.add_mod_mod _ _ _
  have h2 : p + (t.1 + ks.length - p % ks.length) =
      t.1 + ks.length + ks.length * (p / ks.length) := by
    generalize ks.length * (p / ks.length) = c at hd
    generalize p % ks.length = r at hd hr
    omega
  rw [h1, h2, Nat.add_mul_mod_self_left, Nat.add_mod_right,
    Nat.mod_eq_of_lt t.2]
  exact List.getElem?_eq_getElem t.2

lemma emitsWithin_of_reachable {ks : List α} {w : α → ℕ} :
    ∀ (m : ℕ) (s : WIState α),
      (∃ j, j < m ∧ ∃ k, ks[(s.pos + j) % ks.length]? = some k ∧
        0 < s.counts k) →
      emitsWithin ks w m s = true := by
  intro m
  induction m with
  | zero => rintro s ⟨j, hj, _⟩; omega
  | succ m ih =>
    rintro s ⟨j, hj, k, hget, hc⟩
    have hlen : 0 < ks.length := by
      by_contra h0
      push_neg at h0
      rw [List.getElem?_eq_none (by omega)] at hget
      exact Option.noConfusion hget
    have hidx : s.pos % ks.length < ks.length := Nat.mod_lt _ hlen
    obtain ⟨k0, hk0⟩ : ∃ k0, ks[s.pos % ks.length]? = some k0 :=
      ⟨_, List.getElem?_eq_getElem hidx⟩
    by_cases hc0 : 0 < s.counts k0
    · simp only [emitsWithin]
      by_cases hr : ∀ j' ∈ ks,
          Function.update s.counts k0 (s.counts k0 - 1) j' = 0
      · rw [visit_emit_reset (w := w) hk0 hc0 hr]
        simp
      · rw [visit_emit_noreset (w := w) hk0 hc0 hr]
        simp
    · have hc0' : s.counts k0 = 0 := by omega
      have hkmem : k ∈ ks := List.getElem?_mem hget
      have hnz : ¬ ∀ j' ∈ ks, s.counts j' = 0 := by
        intro hall
        exact absurd (hall k hkmem) (by omega)
      have hv := visit_skip_noreset (w := w) hk0 hc0' hnz
      have hj0 : j ≠ 0 := by
        rintro rfl
        rw [Nat.add_zero, hk0] at hget
        obtain rfl : k0 = k := by injection hget
        omega
      obtain ⟨j', rfl⟩ : ∃ j', j = j' + 1 := ⟨j - 1, by omega⟩
      simp only [emitsWithin]
      rw [hv]
      simp only [Option.isSome_none, Bool.false_or]
      apply ih
      refine ⟨j', by omega, k, ?_, hc⟩
      show ks[(s.pos + 1 + j') % ks.length]? = some k
      have harith : s.pos + 1 + j' = s.pos + (j' + 1) := by omega
      rw [harith]
      exact hget

lemma emitsWithin_mono {ks : List α} {w : α → ℕ} :
    ∀ (m : ℕ) (s : WIState α), emitsWithin ks w m s = true →
      emitsWithin ks w (m + 1) s = true := by
  intro m
  induction m with
  | zero => intro s h; exact absurd h (by simp [emitsWithin])
  | succ m ih =>
    intro s h
    simp only [emitsWithin] at h ⊢
    cases h1 : (visit ks w s).1.isSome with
    | true => simp [h1]
    | false =>
      rw [h1] at h
      simp only [Bool.false_or] at h ⊢
      exact ih _ h

lemma emitsWithin_of_posweight {ks : List α} {w : α → ℕ}
    (hpos : ∃ k ∈ ks, 0 < w k) (s : WIState α) :
    emitsWithin ks w (ks.length + 1) s = true := by
  obtain ⟨k, hk, hw⟩ := hpos
  have hlen : 0 < ks.length := List.length_pos.mpr (List.ne_nil_of_mem hk)
  by_cases hall : ∀ j ∈ ks, s.counts j = 0
  · obtain ⟨k0, hk0⟩ : ∃ k0, ks[s.pos % ks.length]? = some k0 :=
      ⟨_, List.getElem?_eq_getElem (Nat.mod_lt _ hlen)⟩
    have hc0 : s.counts k0 = 0 := hall k0 (List.getElem?_mem hk0)
    have hv := visit_skip_reset (w := w) hk0 hc0 hall
    simp only [emitsWithin]
    rw [hv]
    simp only [Option.isSome_none, Bool.false_or]
    apply emitsWithin_of_reachable
    obtain ⟨j, hj, hget⟩ := exists_offset ks k hk (s.pos + 1)
    exact ⟨j, hj, k, hget, hw⟩
  · push_neg at hall
    obtain ⟨k1, hk1, hc1⟩ := hall
    apply emitsWithin_mono
    apply emitsWithin_of_reachable
    obtain ⟨j, hj, hget⟩ := exists_offset ks k1 hk1 s.pos
    exact ⟨j, hj, k1, hget, Nat.pos_of_ne_zero hc1⟩

lemma emitsWithin_allzero {ks : List α} {w : α → ℕ}
    (hw : ∀ k ∈ ks, w k = 0) :
    ∀ (n : ℕ) (s : WIState α), (∀ k ∈ ks, s.counts k = 0) →
      emitsWithin ks w n s = false := by
  intro n
  induction n with
  | zero => intro s _; rfl
  | succ n ih =>
    intro s hall
    rcases hget : ks[s.pos % ks.length]? with _ | k0
    · have hv : visit ks w s = (Option.none, false, ⟨s.pos + 1, s.counts⟩) := by
        unfold visit
        rw [hget]
      simp only [emitsWithin]
      rw [hv]
      simp only [Option.isSome_none, Bool.false_or]
      exact ih _ hall
    · have hc0 : s.counts k0 = 0 := hall _ (List.getElem?_mem hget)
      have hv := visit_skip_reset (w := w) hget hc0 hall
      simp only [emitsWithin]
      rw [hv]
      simp only [Option.isSome_none, Bool.false_or]
      exact ih _ hw

lemma visitN_add {ks : List α} {w : α → ℕ} :
    ∀ (a b : ℕ) (s : WIState α),
      visitN ks w (a + b) s = visitN ks w b (visitN ks w a s) := by
  intro a
  induction a with
  | zero => intro b s; simp [visitN, Nat.zero_add]
  | succ a ih =>
    intro b s
    have h1 : a + 1 + b = (a + b) + 1 := by omega
    rw [h1]
    show visitN ks w (a + b) (visit ks w s).2.2 =
      visitN ks w b (visitN ks w a (visit ks w s).2.2)
    exact ih b _

lemma emitCount_add {ks : List α} {w : α → ℕ} :
    ∀ (a b : ℕ) (s : WIState α),
      emitCount ks w (a + b) s =
        emitCount ks w a s + emitCount ks w b (visitN ks w a s) := by
  intro a
  induction a with
  | zero => intro b s; simp [emitCount, visitN, Nat.zero_add]
  | succ a ih =>
    intro b s
    have h1 : a + 1 + b = (a + b) + 1 := by omega
    rw [h1]
    show (if (visit ks w s).1.isSome then 1 else 0) +
        emitCount ks w (a + b) (visit ks w s).2.2 = _
    rw [ih b _]
    show _ = (if (visit ks w s).1.isSome then 1 else 0) +
        emitCount ks w a (visit ks w s).2.2 +
        emitCount ks w b (visitN ks w (a + 1) s)
    show _ = (if (visit ks w s).1.isSome then 1 else 0) +
        emitCount ks w a (visit ks w s).2.2 +
        emitCount ks w b (visitN ks w a (visit ks w s).2.2)
    omega

lemma noResetWithin_add {ks : List α} {w : α → ℕ} :
    ∀ (a b : ℕ) (s : WIState α),
      noResetWithin ks w (a + b) s =
        (noResetWithin ks w a s && noResetWithin ks w b (visitN ks w a s)) := by
  intro a
  induction a with
  | zero => intro b s; simp [noResetWithin, visitN, Nat.zero_add]
  | succ a ih =>
    intro b s
    have h1 : a + 1 + b = (a + b) + 1 := by omega
    rw [h1]
    show (!(visit ks w s).2.1 && noResetWithin ks w (a + b) (visit ks w s).2.2) = _
    rw [ih b _]
    show _ = (!(visit ks w s).2.1 &&
        noResetWithin ks w a (visit ks w s).2.2 &&
        noResetWithin ks w b (visitN ks w a (visit ks w s).2.2))
    rw [Bool.and_assoc]

lemma one_le_emitCount {ks : List α} {w : α → ℕ} :
    ∀ (n : ℕ) (s : WIState α), emitsWithin ks w n s = true →
      1 ≤ emitCount ks w n s := by
  intro n
  induction n with
  | zero => intro s h; exact absurd h (by simp [emitsWithin])
  | succ n ih =>
    intro s h
    simp only [emitsWithin] at h
    simp only [emitCount]
    cases h1 : (visit ks w s).1.isSome with
    | true => simp
    | false =>
      rw [h1] at h
      simp only [Bool.false_or] at h
      have := ih _ h
      simp [h1]
      omega

lemma sum_map_update_pred (f : α → ℕ) (k : α) :
    ∀ l : List α, l.Nodup → k ∈ l → 0 < f k →
      (l.map (Function.update f k (f k - 1))).sum + 1 = (l.map f).sum := by
  intro l
  induction l with
  | nil => intro _ hk _; cases hk
  | cons a l ih =>
    intro hl hk hpos
    rcases List.mem_cons.mp hk with rfl | hk'
    · have ha : k ∉ l := (List.nodup_cons.mp hl).1
      have htail : l.map (Function.update f k (f k - 1)) = l.map f := by
        apply List.map_congr_left
        intro x hx
        have hxk : x ≠ k := fun h => ha (by rw [← h]; exact hx)
        exact Function.update_noteq hxk _ _
      simp only [List.map_cons, List.sum_cons, Function.update_same, htail]
      omega
    · have hne : k ≠ a := by
        rintro rfl
        exact (List.nodup_cons.mp hl).1 hk'
      have hh : Function.update f k (f k - 1) a = f a :=
        Function.update_noteq (Ne.symm hne) _ _
      have h2 := ih (List.nodup_cons.mp hl).2 hk' hpos
      simp only [List.map_cons, List.sum_cons, hh]
      omega

lemma phi_noReset {ks : List α} {w : α → ℕ} :
    ∀ (n : ℕ) (s : WIState α), noResetWithin ks w n s = true →
      (ks.dedup.map (visitN ks w n s).counts).sum + emitCount ks w n s =
        (ks.dedup.map s.counts).sum := by
  intro n
  induction n with
  | zero => intro s _; simp [visitN, emitCount]
  | succ n ih =>
    intro s h
    simp only [noResetWithin, Bool.and_eq_true, Bool.not_eq_true'] at h
    obtain ⟨hns, hrest⟩ := h
    rcases hget : ks[s.pos % ks.length]? with _ | k0
    · have hv : visit ks w s = (Option.none, false, ⟨s.pos + 1, s.counts⟩) := by
        unfold visit
        rw [hget]
      have ihh := ih (visit ks w s).2.2 hrest
      show (ks.dedup.map (visitN ks w n (visit ks w s).2.2).counts).sum +
        ((if (visit ks w s).1.isSome then 1 else 0) +
          emitCount ks w n (visit ks w s).2.2) = _
      rw [hv] at ihh ⊢
      simpa using ihh
    · have hk0 : k0 ∈ ks := List.getElem?_mem hget
      by_cases hc : 0 < s.counts k0
      · by_cases hr : ∀ j ∈ ks,
            Function.update s.counts k0 (s.counts k0 - 1) j = 0
        · rw [visit_emit_reset (w := w) hget hc hr] at hns
          simp at hns
        · have hv := visit_emit_noreset (w := w) hget hc hr
          have ihh := ih (visit ks w s).2.2 hrest
          show (ks.dedup.map (visitN ks w n (visit ks w s).2.2).counts).sum +
            ((if (visit ks w s).1.isSome then 1 else 0) +
              emitCount ks w n (visit ks w s).2.2) = _
          rw [hv] at ihh ⊢
          simp only [Option.isSome_some, if_true] at ihh ⊢
          have hupd : (ks.dedup.map
              (Function.update s.counts k0 (s.counts k0 - 1))).sum + 1 =
              (ks.dedup.map s.counts).sum :=
            sum_map_update_pred s.counts k0 ks.dedup (List.nodup_dedup ks)
              (List.mem_dedup.mpr hk0) hc
          omega
      · have hc' : s.counts k0 = 0 := by omega
        by_cases hall : ∀ j ∈ ks, s.counts j = 0
        · rw [visit_skip_reset (w := w) hget hc' hall] at hns
          simp at hns
        · have hv := visit_skip_noreset (w := w) hget hc' hall
          have ihh := ih (visit ks w s).2.2 hrest
          show (ks.dedup.map (visitN ks w n (visit ks w s).2.2).counts).sum +
            ((if (visit ks w s).1.isSome then 1 else 0) +
              emitCount ks w n (visit ks w s).2.2) = _
          rw [hv] at ihh ⊢
          simpa using ihh

lemma emitCount_chain {ks : List α} {w : α → ℕ}
    (hpos : ∃ k ∈ ks, 0 < w k) :
    ∀ (m : ℕ) (s : WIState α),
      noResetWithin ks w (m * (ks.length + 1)) s = true →
      m ≤ emitCount ks w (m * (ks.length + 1)) s := by
  intro m
  induction m with
  | zero => intro s _; omega
  | succ m ih =>
    intro s h
    have hmul : (m + 1) * (ks.length + 1) =
        m * (ks.length + 1) + (ks.length + 1) := by ring
    rw [hmul] at h ⊢
    rw [noResetWithin_add] at h
    rw [emitCount_add]
    simp only [Bool.and_eq_true] at h
    have h1 := ih s h.1
    have h2 : 1 ≤ emitCount ks w (ks.length + 1) (visitN ks w (m * (ks.length + 1)) s) :=
      one_le_emitCount _ _ (emitsWithin_of_posweight hpos _)
    omega

lemma cycleEmits_isSome_of_reset {ks : List α} {w : α → ℕ} :
    ∀ (n : ℕ) (s : WIState α), noResetWithin ks w n s = false →
      (cycleEmits ks w n s).isSome = true := by
  intro n
  induction n with
  | zero => intro s h; exact absurd h (by simp [noResetWithin])
  | succ n ih =>
    intro s h
    simp only [noResetWithin, Bool.and_eq_false_iff, Bool.not_eq_false'] at h
    show ((if (visit ks w s).2.1 = true then some (visit ks w s).1.toList
      else (cycleEmits ks w n (visit ks w s).2.2).map
        (fun l => (visit ks w s).1.toList ++ l)) : Option (List α)).isSome = true
    rcases h with h | h
    · rw [if_pos h]
      rfl
    · by_cases h2 : (visit ks w s).2.1 = true
      · rw [if_pos h2]
        rfl
      · rw [if_neg h2]
        have h3 := ih _ h
        cases hcc : cycleEmits ks w n (visit ks w s).2.2 with
        | none => rw [hcc] at h3; exact absurd h3 (by simp)
        | some l2 => rfl

lemma cycle_completes (ks : List α) (w : α → ℕ) (hne : ks ≠ []) :
    ∃ fuel l, oneCycle ks w fuel = some l := by
  by_cases hpos : ∃ k ∈ ks, 0 < w k
  · have hreset : noResetWithin ks w
        (((ks.dedup.map w).sum + 1) * (ks.length + 1)) ⟨0, w⟩ = false := by
      by_contra htrue
      rw [Bool.not_eq_false] at htrue
      have h1 := emitCount_chain hpos ((ks.dedup.map w).sum + 1) ⟨0, w⟩ htrue
      have h2 : (ks.dedup.map (visitN ks w
            (((ks.dedup.map w).sum + 1) * (ks.length + 1)) ⟨0, w⟩).counts).sum +
          emitCount ks w (((ks.dedup.map w).sum + 1) * (ks.length + 1)) ⟨0, w⟩ =
          (ks.dedup.map w).sum :=
        phi_noReset _ _ htrue
      omega
    have hsome := cycleEmits_isSome_of_reset _ _ hreset
    obtain ⟨l, hl⟩ := Option.isSome_iff_exists.mp hsome
    exact ⟨_, l, hl⟩
  · push_neg at hpos
    have hlen : 0 < ks.length := List.length_pos.mpr hne
    obtain ⟨k0, hk0⟩ : ∃ k0, ks[(0 : ℕ) % ks.length]? = some k0 :=
      ⟨_, List.getElem?_eq_getElem (Nat.mod_lt _ hlen)⟩
    have hall : ∀ j ∈ ks, w j = 0 := fun j hj => Nat.eq_zero_of_le_zero (hpos j hj)
    refine ⟨1, [], ?_⟩
    have hv := visit_skip_reset (w := w) (s := ⟨0, w⟩) hk0
      (hall k0 (List.getElem?_mem hk0)) hall
    show (if (visit ks w ⟨0, w⟩).2.1 = true
      then some (visit ks w ⟨0, w⟩).1.toList
      else (cycleEmits ks w 0 (visit ks w ⟨0, w⟩).2.2).map
        (fun l => (visit ks w ⟨0, w⟩).1.toList ++ l)) = some []
    rw [hv]
    rfl

/-- Claim C5: for every non-empty key order and weight map, the iterator
completes a full cycle (reaches a countdown reset within some fuel) and the
cycle's emissions contain each key exactly its weight many times; the
interleaving of the `{A:3, B:1}` instance is checked in the witness. -/
theorem weighted_cycle_fairness (ks : List α) (w : α → ℕ) (hne : ks ≠ []) :
    ∃ fuel l, oneCycle ks w fuel = some l ∧ ∀ k ∈ ks, l.count k = w k := by
  obtain ⟨fuel, l, h⟩ := cycle_completes ks w hne
  exact ⟨fuel, l, h, oneCycle_count fuel l h⟩

/-- Witness for `weighted_cycle_fairness` at keys `[0, 1]` with weights
`{0 ↦ 3, 1 ↦ 1}`: the concrete cycle is `[0, 1, 0, 0]` — three `0`s, one
`1`, interleaved rather than all-`0`-then-all-`1`. -/
theorem weighted_cycle_fairness_witness :
    ((([0, 1] : List ℕ) ≠ []) ∧
      ∃ fuel l, oneCycle [0, 1]
          (fun k => if k = 0 then 3 else if k = 1 then 1 else 0) fuel =
            some l ∧
        ∀ k ∈ ([0, 1] : List ℕ), l.count k =
          (fun k : ℕ => if k = 0 then 3 else if k = 1 then 1 else 0) k) ∧
    oneCycle [0, 1] (fun k => if k = 0 then 3 else if k = 1 then 1 else 0) 20 =
      some [0, 1, 0, 0] ∧
    ([0, 1, 0, 0] : List ℕ).count 0 = 3 ∧
    ([0, 1, 0, 0] : List ℕ).count 1 = 1 ∧
    ([0, 1, 0, 0] : List ℕ) ≠ [0, 0, 0, 1] :=
  ⟨⟨by decide, weighted_cycle_fairness [0, 1] _ (by decide)⟩,
   rfl, by decide, by decide, by decide⟩

/-- Claim C10: from any iterator state, if some key has positive weight, a
`next()` request emits within `ks.length + 1` key visits (it terminates);
if the key list is non-empty but every weight is zero, no visit ever emits
from the fresh state — `next()` loops forever. -/
theorem next_termination (ks : List α) (w : α → ℕ) (s : WIState α) :
    ((∃ k ∈ ks, 0 < w k) → emitsWithin ks w (ks.length + 1) s = true) ∧
    ((∀ k ∈ ks, w k = 0) → ∀ n, emitsWithin ks w n ⟨0, w⟩ = false) := by
  constructor
  · intro h
    exact emitsWithin_of_posweight h s
  · intro h n
    exact emitsWithin_allzero h n ⟨0, w⟩ h

/-- Witness for `next_termination`: with weights `{0 ↦ 3, 1 ↦ 1}` an
emission occurs within 3 visits; with all-zero weights none occurs within
5 visits. -/
theorem next_termination_witness :
    emitsWithin [0, 1] (fun k => if k = 0 then 3 else if k = 1 then 1 else 0) 3
      ⟨0, fun k => if k = 0 then 3 else if k = 1 then 1 else 0⟩ = true ∧
    emitsWithin [0, 1] (fun _ => 0) 5 ⟨0, fun _ => 0⟩ = false :=
  ⟨(next_termination [0, 1] _ _).1 ⟨0, by decide, by decide⟩,
   (next_termination [0, 1] (fun _ => 0) ⟨0, fun _ => 0⟩).2 (by decide) 5⟩

lemma taskLoopA_error_general (stopObs : ℕ → Bool)
    (burstRes : ℕ → Except Unit ℕ) (cs : ℕ → ℕ) :
    ∀ (d b acc fuel : ℕ), d < fuel →
      (∀ j, b ≤ j → j ≤ b + d → stopObs j = false) →
      (∀ j, b ≤ j → j < b + d → burstRes j = Except.ok (cs j)) →
      burstRes (b + d) = Except.error () →
      taskLoopA stopObs burstRes fuel b acc =
        some (StateV.STOPPED, acc + ∑ j in Finset.range d, cs (b + j)) := by
  intro d
  induction d with
  | zero =>
    intro b acc fuel hf hstop hok herr
    obtain ⟨f, rfl⟩ : ∃ f, fuel = f + 1 := ⟨fuel - 1, by omega⟩
    simp only [taskLoopA]
    rw [hstop b le_rfl (by omega)]
    simp only [Bool.false_eq_true, if_false]
    rw [Nat.add_zero] at herr
    rw [herr]
    simp
  | succ d ih =>
    intro b acc fuel hf hstop hok herr
    obtain ⟨f, rfl⟩ : ∃ f, fuel = f + 1 := ⟨fuel - 1, by omega⟩
    simp only [taskLoopA]
    rw [hstop b le_rfl (by omega)]
    simp only [Bool.false_eq_true, if_false]
    rw [hok b le_rfl (by omega)]
    have hrec := ih (b + 1) (acc + cs b) f (by omega)
      (fun j h1 h2 => hstop j (by omega) (by omega))
      (fun j h1 h2 => hok j (by omega) (by omega))
      (by
        have harith : b + 1 + d = b + (d + 1) := by omega
        rw [harith]
        exact herr)
    show taskLoopA stopObs burstRes f (b + 1) (acc + cs b) = _
    rw [hrec]
    have hsum : ∑ j in Finset.range (d + 1), cs (b + j) =
        cs b + ∑ j in Finset.range d, cs (b + 1 + j) := by
      rw [Finset.sum_range_succ']
      simp only [Nat.add_zero]
      rw [Nat.add_comm]
      congr 1
      apply Finset.sum_congr rfl
      intro j _
      congr 1
      omega
    rw [hsum, Nat.add_assoc]

/-- Claim C7: if the bursts before `i` complete normally and burst `i`
raises, the task loop catches the exception at the loop boundary and
returns normally (no propagation, the worker does not crash) with the
state forced to `STOPPED`, and the total issued counts only the bursts
before the exception — no further admissions happen in that run. -/
theorem burst_exception_caught (stopObs : ℕ → Bool)
    (burstRes : ℕ → Except Unit ℕ) (cs : ℕ → ℕ) (i fuel : ℕ)
    (hfuel : i < fuel)
    (hstop : ∀ j ≤ i, stopObs j = false)
    (hok : ∀ j < i, burstRes j = Except.ok (cs j))
    (herr : burstRes i = Except.error ()) :
    taskLoopA stopObs burstRes fuel 0 0 =
      some (StateV.STOPPED, ∑ j in Finset.range i, cs j) := by
  have h := taskLoopA_error_general stopObs burstRes cs i 0 0 fuel hfuel
    (fun j h1 h2 => hstop j (by omega)) (fun j h1 h2 => hok j (by omega))
    (by rw [Nat.zero_add]; exact herr)
  rw [h]
  simp only [Nat.zero_add]

/-- Witness for `burst_exception_caught`: two ok bursts issuing 1 and 2,
then an exception; the loop ends `STOPPED` with 3 issued. -/
theorem burst_exception_caught_witness :
    taskLoopA (fun _ => false)
      (fun j => if j < 2 then Except.ok (j + 1) else Except.error ()) 5 0 0 =
      some (StateV.STOPPED, 3) := by
  rw [burst_exception_caught (fun _ => false)
      (fun j => if j < 2 then Except.ok (j + 1) else Except.error ())
      (fun j => j + 1) 2 5 (by omega) (fun j hj => rfl)
      (fun j hj => by simp [hj]) (by rfl)]
  decide

lemma burstWI_empty (limit : ℚ) (callsAt : ℕ → ℚ) (stAt : ℕ → StateV)
    (w : α → ℕ) (wiFuel n i : ℕ) (wi : WIState α)
    (hst : stAt i = StateV.ORIGINATING) (hcalls : callsAt i < limit) :
    burstWI limit callsAt stAt ([] : List α) w wiFuel (n + 1) i wi =
      some (0, true, wi) := by
  simp only [burstWI]
  rw [if_neg (by simp [hst]), if_neg (not_le.mpr hcalls)]
  simp

lemma taskLoopWI_empty (limit rate : ℚ) (calls0At : ℕ → ℚ)
    (callsAt : ℕ → ℕ → ℚ) (stAt : ℕ → ℕ → StateV) (stopObs : ℕ → Bool)
    (w : α → ℕ) (wiFuel f : ℕ)
    (hstop : stopObs 0 = false) (hst : stAt 0 0 = StateV.ORIGINATING)
    (hcalls : callsAt 0 0 < limit)
    (hnum : 1 ≤ min (limit - calls0At 0) rate) :
    taskLoopWI limit rate calls0At callsAt stAt stopObs ([] : List α) w
      wiFuel (f + 1) 0 0 ⟨0, w⟩ = some (StateV.STOPPED, 0) := by
  obtain ⟨n, hn⟩ : ∃ n, burstIters limit rate (calls0At 0) = n + 1 := by
    have hlt : ¬ (min (limit - calls0At 0) rate ≤ 0) := by
      intro hle
      linarith
    have h1 : (1 : ℤ) ≤ (min (limit - calls0At 0) rate).floor :=
      Rat.le_floor.mpr (by exact_mod_cast hnum)
    refine ⟨(min (limit - calls0At 0) rate).floor.toNat - 1, ?_⟩
    unfold burstIters
    rw [if_neg hlt]
    omega
  simp only [taskLoopWI]
  rw [hstop]
  simp only [Bool.false_eq_true, if_false]
  rw [hn, burstWI_empty limit (callsAt 0) (stAt 0) w wiFuel n 0 ⟨0, w⟩ hst hcalls]

/-- Claim C6, amended: `ConfigurationError` is raised (inside the worker,
before any burst) exactly when the originate command is unset, regardless
of the weight map; with the command set and an empty weight map, the first
burst that admits at least one iteration raises the empty-iterator error,
which is caught at the burst-loop boundary forcing `STOPPED`, and no
session-creation request is ever issued. -/
theorem empty_weights_behavior :
    (∀ (limit rate : ℚ) (calls0At : ℕ → ℚ) (callsAt : ℕ → ℕ → ℚ)
        (stAt : ℕ → ℕ → StateV) (stopObs : ℕ → Bool) (ks : List α)
        (w : α → ℕ) (wiFuel fuel : ℕ),
      servePass false limit rate calls0At callsAt stAt stopObs ks w wiFuel
        fuel = some ServeOutcome.configError) ∧
    (∀ (limit rate : ℚ) (calls0At : ℕ → ℚ) (callsAt : ℕ → ℕ → ℚ)
        (stAt : ℕ → ℕ → StateV) (stopObs : ℕ → Bool) (w : α → ℕ)
        (wiFuel fuel : ℕ),
      stopObs 0 = false → stAt 0 0 = StateV.ORIGINATING →
      callsAt 0 0 < limit → 1 ≤ min (limit - calls0At 0) rate → 0 < fuel →
      servePass true limit rate calls0At callsAt stAt stopObs ([] : List α) w
        wiFuel fuel = some (ServeOutcome.finished StateV.STOPPED 0)) := by
  constructor
  · intro limit rate calls0At callsAt stAt stopObs ks w wiFuel fuel
    rfl
  · intro limit rate calls0At callsAt stAt stopObs w wiFuel fuel
      hstop hst hcalls hnum hfuel
    obtain ⟨f, rfl⟩ : ∃ f, fuel = f + 1 := ⟨fuel - 1, by omega⟩
    unfold servePass
    rw [if_neg (by simp)]
    rw [taskLoopWI_empty limit rate calls0At callsAt stAt stopObs w wiFuel f
      hstop hst hcalls hnum]
    rfl

/-- Claim C6, counterexample: with an empty weight map but the originate
command set, a serve pass does *not* fail with `ConfigurationError`; the
first burst runs, its app-selection pull raises the empty-iterator
`StopIteration`, and the loop boundary catches it, ending `STOPPED` with
zero sessions issued. -/
theorem empty_weights_no_config_error :
    servePass true 1 1 (fun _ => 0) (fun _ _ => 0)
        (fun _ _ => StateV.ORIGINATING) (fun _ => false) ([] : List ℕ)
        (fun _ => 0) 1 2 = some (ServeOutcome.finished StateV.STOPPED 0) ∧
    some (ServeOutcome.finished StateV.STOPPED 0) ≠
      some ServeOutcome.configError := by
  constructor
  · unfold servePass
    rw [if_neg (by simp)]
    have h2 : (2 : ℕ) = 1 + 1 := rfl
    rw [h2]
    rw [taskLoopWI_empty 1 1 (fun _ => 0) (fun _ _ => 0)
      (fun _ _ => StateV.ORIGINATING) (fun _ => false) (fun _ => 0) 1 1
      rfl rfl (by norm_num) (by norm_num)]
    rfl
  · decide

/-- Witness for `empty_weights_behavior`: a run with the originate command
unset yields `configError`; a run with it set and no behaviors loaded ends
`STOPPED` having issued nothing. -/
theorem empty_weights_behavior_witness :
    servePass (α := ℕ) false 1 1 (fun _ => 0) (fun _ _ => 0)
      (fun _ _ => StateV.ORIGINATING) (fun _ => false) [5] (fun _ => 1) 1 1 =
      some ServeOutcome.configError ∧
    servePass true 1 1 (fun _ => 0) (fun _ _ => 0)
      (fun _ _ => StateV.ORIGINATING) (fun _ => false) ([] : List ℕ)
      (fun _ => 0) 1 2 = some (ServeOutcome.finished StateV.STOPPED 0) :=
  ⟨empty_weights_behavior.1 1 1 (fun _ => 0) (fun _ _ => 0)
      (fun _ _ => StateV.ORIGINATING) (fun _ => false) [5] (fun _ => 1) 1 1,
   empty_weights_behavior.2 1 1 (fun _ => 0) (fun _ _ => 0)
      (fun _ _ => StateV.ORIGINATING) (fun _ => false) (fun _ => 0) 1 2
      rfl rfl (by norm_num) (by norm_num) (by norm_num)⟩

end WI
end Switchy
